import Mathlib

/-!
Verification development for the ReadyCheck repository.

Shallow embedding of the two source files:
- src/utils/filter_lcov_exclusions.py (find_excluded_lines, filter_lcov)
- src/utils/run_with_timeout.py (stream_process, main)

Text lines are modelled as lists of characters. File-system access and the
operating-system interactions of the process supervisor are modelled as
explicit oracles passed to the functions, so that every definition is a
computable Lean function faithful to the Python source.
-/

namespace ReadyCheck

/-! ## String helpers (Python substring test, strip, digit parsing) -/

/-- Boolean prefix test on character lists. -/
def isPrefixChars : List Char → List Char → Bool
  | [], _ => true
  | _ :: _, [] => false
  | a :: as, b :: bs => a == b && isPrefixChars as bs

/-- Boolean substring test on character lists; models the Python
operator `pat in line`. -/
def containsSub (pat : List Char) : List Char → Bool
  | [] => pat.isEmpty
  | b :: bs => isPrefixChars pat (b :: bs) || containsSub pat bs

/-- Characters treated as whitespace by the Python str.strip method. -/
def isPySpace (c : Char) : Bool :=
  c == ' ' || c == '\t' || c == '\n' || c == '\r' || c == '\x0b' || c == '\x0c'

/-- Models the Python str.strip method: remove leading and trailing
whitespace. -/
def pyStrip (l : List Char) : List Char :=
  ((l.dropWhile isPySpace).reverse.dropWhile isPySpace).reverse

/-- Numeric value of a list of decimal digit characters. -/
def natOfDigits (ds : List Char) : Nat :=
  ds.foldl (fun a c => a * 10 + (c.toNat - '0'.toNat)) 0

/-- Models the regex match DA:(\d+), applied after the DA: prefix has been
dropped: succeeds when a nonempty maximal run of digits is immediately
followed by a comma, returning the numeric value of the digits. -/
def parseLeadNum (l : List Char) : Option Nat :=
  let ds := l.takeWhile Char.isDigit
  match l.drop ds.length with
  | ',' :: _ => if ds.isEmpty then none else some (natOfDigits ds)
  | _ => none

/-! ## Embedding of src/utils/filter_lcov_exclusions.py -/

/-- Marker text for single-line exclusions. -/
def lcovLine : List Char := "LCOV_EXCL_LINE".toList

/-- Marker text opening an exclusion block. -/
def lcovStart : List Char := "LCOV_EXCL_START".toList

/-- Marker text closing an exclusion block. -/
def lcovStop : List Char := "LCOV_EXCL_STOP".toList

/-- Outcome of opening a source file, as seen by find_excluded_lines.
The Python open call either yields the file content, raises
FileNotFoundError, or raises some other OSError such as PermissionError. -/
inductive OpenResult where
  | content (lines : List (List Char))
  | notFound
  | otherError
deriving DecidableEq

/-- The file system is modelled as an oracle from file names to open
outcomes. -/
def FileSys : Type := List Char → OpenResult

/-- Body of the scanning loop of find_excluded_lines, transcribed from the
Python source: a separate check adds lines containing LCOV_EXCL_LINE, and an
if/elif chain adds start lines (opening a block), stop lines (closing a
block), and lines inside an open block. Line numbers count from the given
lineNum. The returned list plays the role of the Python set. -/
def scanExcl (inb : Bool) (lineNum : Nat) : List (List Char) → List Nat
  | [] => []
  | l :: ls =>
    let hitLine : Bool := containsSub lcovLine l
    let hitStart : Bool := containsSub lcovStart l
    let hitStop : Bool := containsSub lcovStop l
    let fromLine : List Nat := if hitLine then [lineNum] else []
    let fromBlock : List Nat :=
      if hitStart then [lineNum]
      else if hitStop then [lineNum]
      else if inb then [lineNum] else []
    let inb1 : Bool := if hitStart then true else if hitStop then false else inb
    fromLine ++ fromBlock ++ scanExcl inb1 (lineNum + 1) ls

/-- Embedding of find_excluded_lines: scan the named source file for
exclusion markers. A FileNotFoundError is caught and yields the empty set;
any other open failure propagates (the Python except clause names only
FileNotFoundError). -/
def find_excluded_lines (fs : FileSys) (source_file : List Char) :
    Except Unit (List Nat) :=
  match fs source_file with
  | .content ls => .ok (scanExcl false 1 ls)
  | .notFound => .ok []
  | .otherError => .error ()

/-- Record prefix SF: of the lcov format. -/
def sfPrefix : List Char := "SF:".toList

/-- Record prefix DA: of the lcov format. -/
def daPrefix : List Char := "DA:".toList

/-- Record prefix BRDA: of the lcov format. -/
def brdaPrefix : List Char := "BRDA:".toList

/-- Main loop of filter_lcov, transcribed from the Python source: SF:
records reset the exclusion set by scanning the named file and are kept;
DA: and BRDA: records are dropped exactly when their parsed line number is
in the current exclusion set; all other lines are kept. An open failure
other than FileNotFoundError propagates. -/
def filterGo (fs : FileSys) : List Nat → List (List Char) →
    Except Unit (List (List Char))
  | _, [] => .ok []
  | excl, l :: ls =>
    if isPrefixChars sfPrefix l then
      match find_excluded_lines fs (pyStrip (l.drop 3)) with
      | .error e => .error e
      | .ok ex1 =>
        match filterGo fs ex1 ls with
        | .error e => .error e
        | .ok r => .ok (l :: r)
    else if isPrefixChars daPrefix l then
      match parseLeadNum (l.drop 3) with
      | some n =>
        if excl.contains n then filterGo fs excl ls
        else
          match filterGo fs excl ls with
          | .error e => .error e
          | .ok r => .ok (l :: r)
      | none =>
        match filterGo fs excl ls with
        | .error e => .error e
        | .ok r => .ok (l :: r)
    else if isPrefixChars brdaPrefix l then
      match parseLeadNum (l.drop 5) with
      | some n =>
        if excl.contains n then filterGo fs excl ls
        else
          match filterGo fs excl ls with
          | .error e => .error e
          | .ok r => .ok (l :: r)
      | none =>
        match filterGo fs excl ls with
        | .error e => .error e
        | .ok r => .ok (l :: r)
    else
      match filterGo fs excl ls with
      | .error e => .error e
      | .ok r => .ok (l :: r)

/-- Embedding of filter_lcov: the input coverage file is given as its list
of lines, and the filtered list of lines is returned in place of being
written to the output path. The exclusion set starts empty. -/
def filter_lcov (fs : FileSys) (lines : List (List Char)) :
    Except Unit (List (List Char)) :=
  filterGo fs [] lines

/-! ## Declarative descriptions of the exclusion set -/

/-- Whether source line n (1-based) of the file exists and contains the
given marker text. -/
def lineHas (pat : List Char) (src : List (List Char)) (n : Nat) : Bool :=
  decide (1 ≤ n) &&
    (match src.get? (n - 1) with
     | some l => containsSub pat l
     | none => false)

/-- Whether source line k closes an exclusion block: it contains the stop
marker and not the start marker (in the scan, a line containing both keeps
the block open, because the start branch of the if/elif chain wins). -/
def stopOnlyAt (src : List (List Char)) (k : Nat) : Bool :=
  lineHas lcovStop src k && !lineHas lcovStart src k

/-- Whether an exclusion block is open when line n is reached: some earlier
line m contains the start marker and no line strictly between m and n
closes a block. -/
def openBlockB (src : List (List Char)) (n : Nat) : Bool :=
  (List.range n).any fun m =>
    lineHas lcovStart src m &&
      ((List.range n).all fun k => !(decide (m < k) && stopOnlyAt src k))

/-- Declarative description of the exclusion set actually computed by the
code: a source line of the file (1-based, within the file) is excluded when
it bears the LCOV_EXCL_LINE, LCOV_EXCL_START or LCOV_EXCL_STOP marker, or
lies inside an open exclusion block. A stop line is excluded even with no
open block, and a block left open runs to the end of the file. -/
def amendedExcluded (src : List (List Char)) (n : Nat) : Bool :=
  decide (1 ≤ n) && decide (n ≤ src.length) &&
    (lineHas lcovLine src n || lineHas lcovStart src n ||
      lineHas lcovStop src n || openBlockB src n)

/-- Modelled from the claim wording of C3 (spec side, for comparison with
the code): the exclusion set said to contain every line bearing a
single-line exclusion marker and every line from a start marker through the
matching stop marker inclusive. The matching stop of a start at line m is
the first line at or after m bearing the stop marker, or the end of the
file when there is none. -/
def claimExcluded (src : List (List Char)) (n : Nat) : Bool :=
  lineHas lcovLine src n ||
    ((List.range (src.length + 1)).any fun m =>
      lineHas lcovStart src m && decide (m ≤ n) &&
        decide (n ≤ matchingStop src m))
where
  /-- First line at or after m bearing the stop marker, else the file
  length. -/
  matchingStop (src : List (List Char)) (m : Nat) : Nat :=
    match (List.range (src.length + 1)).find?
        (fun k => decide (m ≤ k) && lineHas lcovStop src k) with
    | some k => k
    | none => src.length

/-- Exclusion predicate obtained for an SF: record under the amended
declarative description; open failures other than FileNotFoundError
propagate exactly as in the code. -/
def specExclOfFile (fs : FileSys) (name : List Char) :
    Except Unit (Nat → Bool) :=
  match fs name with
  | .content src => .ok (amendedExcluded src)
  | .notFound => .ok (fun _ => false)
  | .otherError => .error ()

/-- Declarative form of the filter: identical record dispatch, with the
exclusion set given as the declarative predicate amendedExcluded of the
current SF: file. -/
def specFilter (fs : FileSys) : (Nat → Bool) → List (List Char) →
    Except Unit (List (List Char))
  | _, [] => .ok []
  | ex, l :: ls =>
    if isPrefixChars sfPrefix l then
      match specExclOfFile fs (pyStrip (l.drop 3)) with
      | .error e => .error e
      | .ok ex1 =>
        match specFilter fs ex1 ls with
        | .error e => .error e
        | .ok r => .ok (l :: r)
    else if isPrefixChars daPrefix l then
      match parseLeadNum (l.drop 3) with
      | some n =>
        if ex n then specFilter fs ex ls
        else
          match specFilter fs ex ls with
          | .error e => .error e
          | .ok r => .ok (l :: r)
      | none =>
        match specFilter fs ex ls with
        | .error e => .error e
        | .ok r => .ok (l :: r)
    else if isPrefixChars brdaPrefix l then
      match parseLeadNum (l.drop 5) with
      | some n =>
        if ex n then specFilter fs ex ls
        else
          match specFilter fs ex ls with
          | .error e => .error e
          | .ok r => .ok (l :: r)
      | none =>
        match specFilter fs ex ls with
        | .error e => .error e
        | .ok r => .ok (l :: r)
    else
      match specFilter fs ex ls with
      | .error e => .error e
      | .ok r => .ok (l :: r)

/-- How one source line updates the block-open flag of the scan: a start
marker opens, otherwise a stop marker closes, otherwise unchanged. -/
def stepFlag (inb : Bool) (l : List Char) : Bool :=
  if containsSub lcovStart l then true
  else if containsSub lcovStop l then false
  else inb

/-- Block-open flag of the scan after the first j source lines, starting
from the flag inb. -/
def inbAfter (inb : Bool) (src : List (List Char)) : Nat → Bool
  | 0 => inb
  | j + 1 =>
    match src.get? j with
    | none => inbAfter inb src j
    | some l => stepFlag (inbAfter inb src j) l

/-- Whether the source line at 0-based index i exists and carries any of
the three exclusion markers. -/
def markerAt (src : List (List Char)) (i : Nat) : Bool :=
  match src.get? i with
  | some l =>
    containsSub lcovLine l || containsSub lcovStart l || containsSub lcovStop l
  | none => false

/-! ## Embedding of stream_process from src/utils/run_with_timeout.py

The child process and the operating system are modelled as an oracle
trace: the child produces a fixed eventual output on each stream, given as
the list of readline chunks, and each iteration of the drain loop is
driven by one trace entry recording the elapsed wall-clock time observed
at the top of the loop, the channels reported ready by the select call
(with a flag for a readline that raises), and the result of the
non-blocking poll of the child exit status. -/

/-- The two output channels registered with the selector. -/
inductive Channel where
  | out
  | err
deriving DecidableEq

/-- State of one output channel: the chunks the child will still produce
(readline returns the head, or end-of-stream when none remain), whether
the channel is still registered with the selector, and the buffer of
chunks appended so far. -/
structure ChanState where
  pending : List (List Char)
  registered : Bool
  buf : List (List Char)
deriving DecidableEq

/-- Supervisor state: one channel state per stream. -/
structure PState where
  cout : ChanState
  cerr : ChanState
deriving DecidableEq

/-- One select event: the ready channel, and whether the readline call on
it raises an exception. -/
structure Ev where
  chan : Channel
  readFails : Bool
deriving DecidableEq

/-- One iteration of the drain loop, as seen through the oracle: the
elapsed wall-clock time at the top of the loop, the events returned by
the select call, and the result of the non-blocking poll. -/
structure Iter where
  now : Nat
  events : List Ev
  polled : Option Int
deriving DecidableEq

/-- Scope of a kill action issued by the supervisor. The group constructor
exists to state the process-group claim; it is never emitted by the code. -/
inductive KillScope where
  | child
  | group
deriving DecidableEq

/-- Outcome of the drain loop: a normal break with the polled exit code, a
timeout (carrying the kill actions issued), an uncaught readline exception
on a channel, or an exhausted trace (the loop still running). Every
constructor carries the supervisor state at that point. -/
inductive RunOutcome where
  | done (code : Int) (s : PState)
  | timeout (kills : List KillScope) (s : PState)
  | raised (c : Channel) (s : PState)
  | fuel (s : PState)
deriving DecidableEq

/-- Channel accessor. -/
def getChan (s : PState) : Channel → ChanState
  | .out => s.cout
  | .err => s.cerr

/-- Channel update. -/
def setChan (s : PState) : Channel → ChanState → PState
  | .out, c => { s with cout := c }
  | .err, c => { s with cerr := c }

/-- Body of the for-loop over the events of one select pass, transcribed
from the Python source. For a ready channel still registered: a raising
readline propagates (aborting everything, since the surrounding try
catches only TimeoutError); otherwise readline returns the next pending
chunk, which is appended to the buffer (the mirror write to the external
sink is wrapped in its own try/except and cannot fail observably), or
end-of-stream, upon which the channel is unregistered. Events on
unregistered channels cannot be produced by the selector and are
skipped. -/
def applyEvent (s : PState) (ev : Ev) : Except (Channel × PState) PState :=
  if (getChan s ev.chan).registered then
    if ev.readFails then .error (ev.chan, s)
    else
      match (getChan s ev.chan).pending with
      | [] => .ok (setChan s ev.chan { getChan s ev.chan with registered := false })
      | x :: xs =>
        .ok (setChan s ev.chan
          { getChan s ev.chan with
              pending := xs, buf := (getChan s ev.chan).buf ++ [x] })
  else .ok s

/-- Processing of all events of one select pass, in order; the first
raising readline aborts the pass. -/
def procEvents : PState → List Ev → Except (Channel × PState) PState
  | s, [] => .ok s
  | s, ev :: rest =>
    match applyEvent s ev with
    | .error e => .error e
    | .ok s1 => procEvents s1 rest

/-- The deadline check at the top of the loop: timeout_sec is not None and
the elapsed time strictly exceeds it. -/
def timedOutAt : Option Nat → Nat → Bool
  | none, _ => false
  | some d, t => decide (d < t)

/-- The drain loop of stream_process, transcribed from the Python source:
on each iteration, first the deadline check (raising TimeoutError, caught
below as a kill of the child and the sentinel return), then the select
pass, then the non-blocking poll; the loop breaks normally only when the
poll reported an exit code and the select pass of the same iteration
returned no events. -/
def runLoop (d : Option Nat) : PState → List Iter → RunOutcome
  | s, [] => .fuel s
  | s, it :: rest =>
    if timedOutAt d it.now then .timeout [KillScope.child] s
    else
      match procEvents s it.events with
      | .error (c, s1) => .raised c s1
      | .ok s1 =>
        match it.polled with
        | some code => if it.events.isEmpty then .done code s1 else runLoop d s1 rest
        | none => runLoop d s1 rest

/-- Initial channel state: the full eventual output pending, channel
registered, buffer empty. -/
def initChan (full : List (List Char)) : ChanState :=
  { pending := full, registered := true, buf := [] }

/-- Initial supervisor state after the spawn. -/
def initState (fullOut fullErr : List (List Char)) : PState :=
  { cout := initChan fullOut, cerr := initChan fullErr }

/-- Embedding of stream_process: run the drain loop from the freshly
spawned state over the oracle trace. -/
def stream_process (d : Option Nat) (fullOut fullErr : List (List Char))
    (tr : List Iter) : RunOutcome :=
  runLoop d (initState fullOut fullErr) tr

/-- The value returned by stream_process, produced exactly on the two
return paths of the Python function: the normal break returns the polled
exit code with the joined buffers, and the TimeoutError handler returns
the sentinel 124 with the joined buffers collected so far. -/
structure ExecutionResult where
  code : Int
  stdout : List Char
  stderr : List Char
deriving DecidableEq

/-- Map a loop outcome to the returned result: none when the Python
function does not return (uncaught exception or still running). -/
def resultOf : RunOutcome → Option ExecutionResult
  | .done c s => some ⟨c, s.cout.buf.flatten, s.cerr.buf.flatten⟩
  | .timeout _ s => some ⟨124, s.cout.buf.flatten, s.cerr.buf.flatten⟩
  | .raised _ _ => none
  | .fuel _ => none

/-- Supervisor state carried by a loop outcome. -/
def finalState : RunOutcome → PState
  | .done _ s => s
  | .timeout _ s => s
  | .raised _ s => s
  | .fuel s => s

/-- Kill actions issued on the way to a loop outcome: exactly the timeout
handler calls proc.kill. -/
def killsOf : RunOutcome → List KillScope
  | .timeout ks _ => ks
  | _ => []

/-- Whether the loop outcome is one of the two returning paths. -/
def isTerminal : RunOutcome → Bool
  | .done _ _ => true
  | .timeout _ _ => true
  | _ => false

/-- Largest elapsed-time reading of a trace, standing for the wall-clock
duration of the run. -/
def elapsedOf (tr : List Iter) : Nat :=
  (tr.map Iter.now).foldr max 0

/-! ## Embedding of main from src/utils/run_with_timeout.py -/

/-- Diagnostic printed when no command is supplied. -/
def noCommandMsg : List Char := "No command provided".toList

/-- First line of the timeout diagnostic block. -/
def timeoutBanner : List Char := "\n--- TIMEOUT ---".toList

/-- Second line of the timeout diagnostic block: the command, space
joined. -/
def commandLineMsg (cmd : List (List Char)) : List Char :=
  "Command: ".toList ++ List.intercalate " ".toList cmd

/-- Third line of the timeout diagnostic block: captured stdout size. -/
def stdoutBytesMsg (n : Nat) : List Char :=
  "Collected stdout bytes: ".toList ++ (Nat.repr n).toList

/-- Fourth line of the timeout diagnostic block: captured stderr size. -/
def stderrBytesMsg (n : Nat) : List Char :=
  "Collected stderr bytes: ".toList ++ (Nat.repr n).toList

/-- Observable behaviour of the command-line entry point: the returned
exit code, the lines it printed to the error sink itself, and whether a
child process was spawned. -/
structure CliResult where
  exitCode : Int
  errSink : List (List Char)
  spawned : Bool
deriving DecidableEq

/-- Embedding of main after argument parsing: with no command, print the
diagnostic and return 2 without spawning; otherwise run stream_process
(none when it does not return), print the timeout diagnostic block when
the code is the sentinel 124, and return 0 for code 0, else the code
itself (the None fallback of the Python source is unreachable because the
normal break requires a non-None poll). -/
def main (timeout : Nat) (cmd : List (List Char))
    (fullOut fullErr : List (List Char)) (tr : List Iter) : Option CliResult :=
  if cmd.isEmpty then some ⟨2, [noCommandMsg], false⟩
  else
    match resultOf (stream_process (some timeout) fullOut fullErr tr) with
    | none => none
    | some r =>
      let diag : List (List Char) :=
        if r.code = 124 then
          [timeoutBanner, commandLineMsg cmd,
            stdoutBytesMsg r.stdout.length, stderrBytesMsg r.stderr.length]
        else []
      some ⟨if r.code = 0 then 0 else r.code, diag, true⟩

/-! ## Invariants and concrete inputs used by the development -/

/-- Channel invariant: the buffer followed by the still-pending chunks is
the full eventual output of the stream, and an unregistered channel has
been drained to end-of-stream. -/
def chanInv (full : List (List Char)) (c : ChanState) : Prop :=
  c.buf ++ c.pending = full ∧ (c.registered = false → c.pending = [])

/-- Supervisor invariant: both channel invariants. -/
def stInv (o e : List (List Char)) (s : PState) : Prop :=
  chanInv o s.cout ∧ chanInv e s.cerr

/-- State reached by a select pass, also on the exception path. -/
def stateOfPE : Except (Channel × PState) PState → PState
  | .ok s => s
  | .error (_, s) => s

/-- Source file of the C3 counterexample: a single line carrying a stop
marker with no preceding start marker. -/
def srcC3 : List (List Char) := ["int x; // LCOV_EXCL_STOP".toList]

/-- File system of the C3 counterexample. -/
def fsC3 : FileSys :=
  fun n => if n = "a.c".toList then .content srcC3 else .notFound

/-- Coverage input of the C3 counterexample. -/
def inC3 : List (List Char) :=
  ["SF:a.c".toList, "DA:1,1".toList, "end_of_record".toList]

/-- File system of the C10 counterexample: opening b.c fails with an error
other than FileNotFoundError, for example PermissionError. -/
def fsC10 : FileSys :=
  fun n => if n = "b.c".toList then .otherError else .notFound

/-- Trace of the C1 witness: one chunk drained, then the deadline of 3 is
exceeded. -/
def trC1 : List Iter :=
  [⟨0, [⟨Channel.out, false⟩], none⟩, ⟨5, [], none⟩]

/-- Trace of the C2 witness: drain the single stdout chunk, read
end-of-stream on both channels, then observe the exit in a quiet pass. -/
def trC2 : List Iter :=
  [⟨0, [⟨Channel.out, false⟩], none⟩,
   ⟨0, [⟨Channel.out, false⟩], none⟩,
   ⟨1, [⟨Channel.err, false⟩], none⟩,
   ⟨1, [], some 0⟩]

/-- Trace of the C4 counterexample: readline raises on stdout in the first
pass while stderr still has data that a later pass would drain. -/
def trC4 : List Iter :=
  [⟨0, [⟨Channel.out, true⟩], none⟩, ⟨0, [⟨Channel.err, false⟩], none⟩]

/-- Stderr output of the C4 counterexample. -/
def errC4 : List (List Char) := ["late\n".toList]

/-- Trace of the C5 counterexample: the first pass already exceeds the
deadline of 1. -/
def trC5 : List Iter := [⟨2, [], none⟩]

/-- First trace of the C6 counterexample: exit observed at elapsed time
0. -/
def trA6 : List Iter := [⟨0, [], some 3⟩]

/-- Second trace of the C6 counterexample: the same exit observed at
elapsed time 7. -/
def trB6 : List Iter := [⟨7, [], some 3⟩]

/-- Trace of the C7 witness: one busy pass, then a quiet pass with the
exit code observed. -/
def trC7 : List Iter :=
  [⟨0, [⟨Channel.out, false⟩], some 9⟩, ⟨1, [], some 9⟩]

/-- Trace of the C8 witness: a pass at elapsed time 0 draining one chunk,
then a pass at positive elapsed time forcing the zero deadline. -/
def trC8 : List Iter :=
  [⟨0, [⟨Channel.out, false⟩], none⟩, ⟨1, [], none⟩]

/-- Trace of the C9 witness for the normal-exit case. -/
def trC9a : List Iter := [⟨0, [], some 7⟩]

/-- Trace of the C9 witness for the timeout case. -/
def trC9b : List Iter :=
  [⟨0, [⟨Channel.out, false⟩], none⟩, ⟨9, [], none⟩]

/-- Final state of the C1 witness run. -/
def sC1 : PState := ⟨⟨[], true, ["hi\n".toList]⟩, ⟨[], true, []⟩⟩

/-- Final state of the C2 witness run. -/
def sC2 : PState := ⟨⟨[], false, ["hello\n".toList]⟩, ⟨[], false, []⟩⟩

/-- Final state of the C7 witness run. -/
def sC7 : PState := ⟨⟨[], true, ["a".toList]⟩, ⟨[], true, []⟩⟩

/-- Final state of the C9 witness timeout run. -/
def sC9 : PState := ⟨⟨[], true, ["x\n".toList]⟩, ⟨[], true, []⟩⟩

/-! ## Lemmas on the drain loop -/

theorem bool_ext {a b : Bool} (h : (a = true) ↔ (b = true)) : a = b := by
  cases a <;> cases b <;> simp_all

theorem applyEvent_inv {o e : List (List Char)} (s : PState) (ev : Ev)
    (h : stInv o e s) : stInv o e (stateOfPE (applyEvent s ev)) := by
  obtain ⟨⟨h1, h2⟩, h3, h4⟩ := h
  obtain ⟨ch, rf⟩ := ev
  cases ch <;> cases rf
  case out.false =>
    by_cases hr : s.cout.registered = true
    · cases hp : s.cout.pending with
      | nil =>
        have hst : stateOfPE (applyEvent s ⟨Channel.out, false⟩) =
            { s with cout :=
              { pending := s.cout.pending, registered := false, buf := s.cout.buf } } := by
          simp [applyEvent, getChan, setChan, stateOfPE, hr, hp]
        rw [hst]
        exact ⟨⟨h1, fun _ => hp⟩, h3, h4⟩
      | cons x xs =>
        have hst : stateOfPE (applyEvent s ⟨Channel.out, false⟩) =
            { s with cout :=
              { pending := xs, registered := s.cout.registered,
                buf := s.cout.buf ++ [x] } } := by
          simp [applyEvent, getChan, setChan, stateOfPE, hr, hp]
        rw [hst]
        refine ⟨⟨?_, ?_⟩, h3, h4⟩
        · rw [List.append_assoc, List.singleton_append, ← hp]; exact h1
        · intro hc; exact Bool.noConfusion (hr.symm.trans hc)
    · simpa [applyEvent, getChan, stateOfPE, hr] using ⟨⟨h1, h2⟩, h3, h4⟩
  case out.true =>
    by_cases hr : s.cout.registered = true <;>
      simpa [applyEvent, getChan, stateOfPE, hr] using ⟨⟨h1, h2⟩, h3, h4⟩
  case err.false =>
    by_cases hr : s.cerr.registered = true
    · cases hp : s.cerr.pending with
      | nil =>
        have hst : stateOfPE (applyEvent s ⟨Channel.err, false⟩) =
            { s with cerr :=
              { pending := s.cerr.pending, registered := false, buf := s.cerr.buf } } := by
          simp [applyEvent, getChan, setChan, stateOfPE, hr, hp]
        rw [hst]
        exact ⟨⟨h1, h2⟩, h3, fun _ => hp⟩
      | cons x xs =>
        have hst : stateOfPE (applyEvent s ⟨Channel.err, false⟩) =
            { s with cerr :=
              { pending := xs, registered := s.cerr.registered,
                buf := s.cerr.buf ++ [x] } } := by
          simp [applyEvent, getChan, setChan, stateOfPE, hr, hp]
        rw [hst]
        refine ⟨⟨h1, h2⟩, ?_, ?_⟩
        · rw [List.append_assoc, List.singleton_append, ← hp]; exact h3
        · intro hc; exact Bool.noConfusion (hr.symm.trans hc)
    · simpa [applyEvent, getChan, stateOfPE, hr] using ⟨⟨h1, h2⟩, h3, h4⟩
  case err.true =>
    by_cases hr : s.cerr.registered = true <;>
      simpa [applyEvent, getChan, stateOfPE, hr] using ⟨⟨h1, h2⟩, h3, h4⟩

theorem procEvents_inv {o e : List (List Char)} :
    ∀ (evs : List Ev) (s : PState), stInv o e s →
      stInv o e (stateOfPE (procEvents s evs))
  | [], _, h => h
  | ev :: rest, s, h => by
    rw [procEvents]
    have hev := applyEvent_inv (o := o) (e := e) s ev h
    cases hae : applyEvent s ev with
    | error p => rw [hae] at hev; exact hev
    | ok s1 =>
      rw [hae] at hev
      exact procEvents_inv rest s1 hev

theorem runLoop_inv {o e : List (List Char)} (d : Option Nat) :
    ∀ (tr : List Iter) (s : PState), stInv o e s →
      stInv o e (finalState (runLoop d s tr))
  | [], _, h => h
  | it :: rest, s, h => by
    rw [runLoop]
    by_cases ht : timedOutAt d it.now = true
    · simpa [ht, finalState] using h
    · have hev := procEvents_inv (o := o) (e := e) it.events s h
      simp only [ht, if_false, Bool.not_eq_true]
      cases hpe : procEvents s it.events with
      | error p =>
        rw [hpe] at hev
        obtain ⟨c1, s1⟩ := p
        simpa [finalState, stateOfPE] using hev
      | ok s1 =>
        rw [hpe] at hev
        simp only [stateOfPE] at hev
        cases hpol : it.polled with
        | none => exact runLoop_inv d rest s1 hev
        | some code =>
          by_cases hemp : it.events.isEmpty = true
          · simpa [hemp, finalState] using hev
          · simp only [hemp, if_false, Bool.not_eq_true]
            exact runLoop_inv d rest s1 hev

theorem initState_inv (o e : List (List Char)) : stInv o e (initState o e) := by
  refine ⟨⟨rfl, ?_⟩, ⟨rfl, ?_⟩⟩ <;> intro hfalse <;> simp [initState, initChan] at hfalse

theorem applyEvent_ok_of_no_fail (s : PState) (ev : Ev)
    (hf : ev.readFails = false) : ∃ s1, applyEvent s ev = .ok s1 := by
  unfold applyEvent
  by_cases hr : (getChan s ev.chan).registered = true
  · cases hp : (getChan s ev.chan).pending with
    | nil =>
      exact ⟨setChan s ev.chan { getChan s ev.chan with registered := false },
        by rw [if_pos hr, hf]; simp⟩
    | cons x xs =>
      exact ⟨setChan s ev.chan
          { getChan s ev.chan with pending := xs, buf := (getChan s ev.chan).buf ++ [x] },
        by rw [if_pos hr, hf]; simp⟩
  · exact ⟨s, by rw [if_neg hr]⟩

theorem applyEvent_error (s : PState) (ev : Ev) (c : Channel) (s1 : PState)
    (h : applyEvent s ev = .error (c, s1)) :
    ev.chan = c ∧ ev.readFails = true := by
  unfold applyEvent at h
  by_cases hr : (getChan s ev.chan).registered = true
  · by_cases hf : ev.readFails = true
    · rw [if_pos hr, if_pos hf] at h
      simp only [Except.error.injEq, Prod.mk.injEq] at h
      exact ⟨h.1, hf⟩
    · rw [if_pos hr, if_neg hf] at h
      cases hp : (getChan s ev.chan).pending <;> rw [hp] at h <;> simp at h
  · rw [if_neg hr] at h
    simp at h

theorem procEvents_error_cause :
    ∀ (evs : List Ev) (s : PState) (c : Channel) (s1 : PState),
      procEvents s evs = .error (c, s1) →
      ∃ ev ∈ evs, ev.chan = c ∧ ev.readFails = true
  | [], s, c, s1, h => by rw [procEvents] at h; simp at h
  | ev :: rest, s, c, s1, h => by
    rw [procEvents] at h
    cases hae : applyEvent s ev with
    | error p =>
      rw [hae] at h
      simp only [Except.error.injEq] at h
      obtain ⟨hc, hf⟩ := applyEvent_error s ev c s1 (by rw [hae, h])
      exact ⟨ev, List.mem_cons_self ev rest, hc, hf⟩
    | ok s2 =>
      rw [hae] at h
      obtain ⟨ev1, hm, hprop⟩ := procEvents_error_cause rest s2 c s1 h
      exact ⟨ev1, List.mem_cons_of_mem ev hm, hprop⟩

theorem procEvents_ok_of_no_fail :
    ∀ (evs : List Ev) (s : PState), (∀ ev ∈ evs, ev.readFails = false) →
      ∃ s1, procEvents s evs = .ok s1
  | [], s, _ => ⟨s, rfl⟩
  | ev :: rest, s, h => by
    rw [procEvents]
    obtain ⟨s1, hs1⟩ :=
      applyEvent_ok_of_no_fail s ev (h ev (List.mem_cons_self ev rest))
    rw [hs1]
    exact procEvents_ok_of_no_fail rest s1
      (fun e2 he2 => h e2 (List.mem_cons_of_mem ev he2))

theorem runLoop_done_split (d : Option Nat) :
    ∀ (tr : List Iter) (s : PState) (c : Int) (s1 : PState),
      runLoop d s tr = .done c s1 →
      ∃ pre it post, tr = pre ++ it :: post ∧ timedOutAt d it.now = false ∧
        it.events = [] ∧ it.polled = some c
  | [], s, c, s1, h => by rw [runLoop] at h; simp at h
  | it :: rest, s, c, s1, h => by
    rw [runLoop] at h
    cases ht : timedOutAt d it.now with
    | true => rw [if_pos ht] at h; simp at h
    | false =>
      rw [if_neg (by rw [ht]; simp)] at h
      cases hpe : procEvents s it.events with
      | error p =>
        obtain ⟨c0, s0⟩ := p
        rw [hpe] at h; simp at h
      | ok s2 =>
        rw [hpe] at h
        cases hpol : it.polled with
        | none =>
          rw [hpol] at h
          obtain ⟨pre, it1, post, htr, hprops⟩ :=
            runLoop_done_split d rest s2 c s1 h
          exact ⟨it :: pre, it1, post, by rw [htr]; rfl, hprops⟩
        | some code =>
          rw [hpol] at h
          dsimp only at h
          by_cases hemp : it.events.isEmpty = true
          · rw [if_pos hemp] at h
            simp only [RunOutcome.done.injEq] at h
            exact ⟨[], it, rest, rfl, ht, List.isEmpty_iff.mp hemp,
              by rw [hpol, h.1]⟩
          · rw [if_neg hemp] at h
            obtain ⟨pre, it1, post, htr, hprops⟩ :=
              runLoop_done_split d rest s2 c s1 h
            exact ⟨it :: pre, it1, post, by rw [htr]; rfl, hprops⟩

theorem runLoop_raised_cause (d : Option Nat) :
    ∀ (tr : List Iter) (s : PState) (c : Channel) (s1 : PState),
      runLoop d s tr = .raised c s1 →
      ∃ it ∈ tr, ∃ ev ∈ it.events, ev.chan = c ∧ ev.readFails = true
  | [], s, c, s1, h => by rw [runLoop] at h; simp at h
  | it :: rest, s, c, s1, h => by
    rw [runLoop] at h
    cases ht : timedOutAt d it.now with
    | true => rw [if_pos ht] at h; simp at h
    | false =>
      rw [if_neg (by rw [ht]; simp)] at h
      cases hpe : procEvents s it.events with
      | error p =>
        obtain ⟨c0, s0⟩ := p
        rw [hpe] at h
        simp only [RunOutcome.raised.injEq] at h
        obtain ⟨ev, hm, hprop⟩ :=
          procEvents_error_cause it.events s c s1 (by rw [hpe, h.1, h.2])
        exact ⟨it, List.mem_cons_self it rest, ev, hm, hprop⟩
      | ok s2 =>
        rw [hpe] at h
        have tail : ∀ h2 : runLoop d s2 rest = .raised c s1,
            ∃ it2 ∈ it :: rest, ∃ ev ∈ it2.events, ev.chan = c ∧ ev.readFails = true := by
          intro h2
          obtain ⟨it1, hm, hrest⟩ := runLoop_raised_cause d rest s2 c s1 h2
          exact ⟨it1, List.mem_cons_of_mem it hm, hrest⟩
        cases hpol : it.polled with
        | none => rw [hpol] at h; exact tail h
        | some code =>
          rw [hpol] at h
          dsimp only at h
          by_cases hemp : it.events.isEmpty = true
          · rw [if_pos hemp] at h; simp at h
          · rw [if_neg hemp] at h; exact tail h

theorem runLoop_fuel_no_timeout (d : Option Nat) :
    ∀ (tr : List Iter) (s : PState) (s1 : PState),
      runLoop d s tr = .fuel s1 → ∀ it ∈ tr, timedOutAt d it.now = false
  | [], _, _, _ => by intro it hit; simp at hit
  | it :: rest, s, s1, h => by
    rw [runLoop] at h
    cases ht : timedOutAt d it.now with
    | true => rw [if_pos ht] at h; simp at h
    | false =>
      rw [if_neg (by rw [ht]; simp)] at h
      intro it2 hit2
      rcases List.mem_cons.mp hit2 with heq | hm
      · rw [heq]; exact ht
      · cases hpe : procEvents s it.events with
        | error p =>
          obtain ⟨c0, s0⟩ := p
          rw [hpe] at h; simp at h
        | ok s2 =>
          rw [hpe] at h
          cases hpol : it.polled with
          | none =>
            rw [hpol] at h
            exact runLoop_fuel_no_timeout d rest s2 s1 h it2 hm
          | some code =>
            rw [hpol] at h
            dsimp only at h
            by_cases hemp : it.events.isEmpty = true
            · rw [if_pos hemp] at h; simp at h
            · rw [if_neg hemp] at h
              exact runLoop_fuel_no_timeout d rest s2 s1 h it2 hm

theorem runLoop_timeout_kills (d : Option Nat) :
    ∀ (tr : List Iter) (s : PState) (ks : List KillScope) (s1 : PState),
      runLoop d s tr = .timeout ks s1 → ks = [KillScope.child]
  | [], s, ks, s1, h => by rw [runLoop] at h; simp at h
  | it :: rest, s, ks, s1, h => by
    rw [runLoop] at h
    cases ht : timedOutAt d it.now with
    | true =>
      rw [if_pos ht] at h
      simp only [RunOutcome.timeout.injEq] at h
      exact h.1.symm
    | false =>
      rw [if_neg (by rw [ht]; simp)] at h
      cases hpe : procEvents s it.events with
      | error p =>
        obtain ⟨c0, s0⟩ := p
        rw [hpe] at h; simp at h
      | ok s2 =>
        rw [hpe] at h
        cases hpol : it.polled with
        | none => rw [hpol] at h; exact runLoop_timeout_kills d rest s2 ks s1 h
        | some code =>
          rw [hpol] at h
          dsimp only at h
          by_cases hemp : it.events.isEmpty = true
          · rw [if_pos hemp] at h; simp at h
          · rw [if_neg hemp] at h
            exact runLoop_timeout_kills d rest s2 ks s1 h

/-! ## Claims about stream_process -/

/-- C1: for every command whose elapsed wall-clock time exceeds a
configured deadline (the run ends on the timeout path), stream_process
returns the timeout sentinel exit code 124 together with the stdout and
stderr buffers accumulated up to the kill point, which form a prefix of
the command and its eventual full output, never more. -/
theorem C1_timeout_partial_output (d : Option Nat) (o e : List (List Char))
    (tr : List Iter) (ks : List KillScope) (s : PState)
    (h : stream_process d o e tr = .timeout ks s) :
    resultOf (stream_process d o e tr) =
      some ⟨124, s.cout.buf.flatten, s.cerr.buf.flatten⟩ ∧
    s.cout.buf.flatten <+: o.flatten ∧ s.cerr.buf.flatten <+: e.flatten := by
  have hinv := runLoop_inv (o := o) (e := e) d tr (initState o e) (initState_inv o e)
  rw [stream_process] at h
  rw [h] at hinv
  simp only [finalState] at hinv
  obtain ⟨⟨h1, h2⟩, h3, h4⟩ := hinv
  rw [stream_process, h]
  refine ⟨rfl, ⟨s.cout.pending.flatten, ?_⟩, ⟨s.cerr.pending.flatten, ?_⟩⟩
  · rw [← List.flatten_append, h1]
  · rw [← List.flatten_append, h3]

/-- C1 witness: a concrete run that drains one chunk and then exceeds a
deadline of 3; the result is the sentinel 124 with the partial buffer, a
prefix of the full output. -/
theorem C1_witness :
    stream_process (some 3) ["hi\n".toList] [] trC1 = .timeout [KillScope.child] sC1 ∧
    (resultOf (stream_process (some 3) ["hi\n".toList] [] trC1) =
        some ⟨124, sC1.cout.buf.flatten, sC1.cerr.buf.flatten⟩ ∧
      sC1.cout.buf.flatten <+: (["hi\n".toList] : List (List Char)).flatten ∧
      sC1.cerr.buf.flatten <+: ([] : List (List Char)).flatten) :=
  ⟨rfl, C1_timeout_partial_output (some 3) ["hi\n".toList] [] trC1 [KillScope.child] sC1 rfl⟩

/-- C2: for every command that reaches end-of-stream on both channels
(both channels unregistered at the end) and exits before the deadline
expires (the loop breaks normally), stream_process returns the child true
exit code, and the joined stdout and stderr buffers equal the child full
output on each stream byte-for-byte. -/
theorem C2_complete_full_output (d : Option Nat) (o e : List (List Char))
    (tr : List Iter) (c v : Int) (s : PState)
    (hrun : stream_process d o e tr = .done c s)
    (hout : s.cout.registered = false) (herr : s.cerr.registered = false)
    (hpoll : ∀ it ∈ tr, it.polled = none ∨ it.polled = some v) :
    resultOf (stream_process d o e tr) = some ⟨v, o.flatten, e.flatten⟩ := by
  rw [stream_process] at hrun
  have hinv := runLoop_inv (o := o) (e := e) d tr (initState o e) (initState_inv o e)
  rw [hrun] at hinv
  simp only [finalState] at hinv
  obtain ⟨⟨h1, h2⟩, h3, h4⟩ := hinv
  obtain ⟨pre, it1, post, htr, hto, hev, hpol1⟩ :=
    runLoop_done_split d tr (initState o e) c s hrun
  have hmem : it1 ∈ tr := by
    rw [htr]; exact List.mem_append_right _ (List.mem_cons_self _ _)
  have hc : c = v := by
    rcases hpoll it1 hmem with hnone | hsome
    · rw [hpol1] at hnone; simp at hnone
    · rw [hpol1] at hsome; exact Option.some.inj hsome
  have hbo : s.cout.buf = o := by rw [← h1, h2 hout, List.append_nil]
  have hbe : s.cerr.buf = e := by rw [← h3, h4 herr, List.append_nil]
  rw [stream_process, hrun]
  simp only [resultOf, hbo, hbe, hc]

/-- C2 witness: the scenario of the specification, a command printing one
line and exiting 0 before a deadline of 5; both channels reach
end-of-stream and the result is the code 0 with the full output. -/
theorem C2_witness :
    stream_process (some 5) ["hello\n".toList] [] trC2 = .done 0 sC2 ∧
    sC2.cout.registered = false ∧ sC2.cerr.registered = false ∧
    (∀ it ∈ trC2, it.polled = none ∨ it.polled = some 0) ∧
    resultOf (stream_process (some 5) ["hello\n".toList] [] trC2) =
      some ⟨0, (["hello\n".toList] : List (List Char)).flatten,
        ([] : List (List Char)).flatten⟩ :=
  ⟨rfl, rfl, rfl, by decide,
    C2_complete_full_output (some 5) ["hello\n".toList] [] trC2 0 0 sC2
      rfl rfl rfl (by decide)⟩

/-- C7: the drain loop never breaks normally while the process is still
running or while the select pass of the same iteration produced events:
a normal exit happens exactly in an iteration whose deadline check passed,
whose select returned no events, and whose poll observed the exit code. -/
theorem C7_normal_exit_condition (d : Option Nat) (s : PState) (tr : List Iter)
    (c : Int) (s1 : PState) (h : runLoop d s tr = .done c s1) :
    ∃ pre it post, tr = pre ++ it :: post ∧ timedOutAt d it.now = false ∧
      it.events = [] ∧ it.polled = some c :=
  runLoop_done_split d tr s c s1 h

/-- C7 witness: a run with one busy pass and one quiet pass with the exit
observed; the decomposition names the quiet pass. -/
theorem C7_witness :
    runLoop (some 5) (initState ["a".toList] []) trC7 = .done 9 sC7 ∧
    ∃ pre it post, trC7 = pre ++ it :: post ∧ timedOutAt (some 5) it.now = false ∧
      it.events = [] ∧ it.polled = some 9 :=
  ⟨rfl, C7_normal_exit_condition (some 5) (initState ["a".toList] []) trC7 9 sC7 rfl⟩

/-- C4 counterexample: the claim says a failed read on one channel leaves
the loop running and the other channel still being drained, but readline
is not wrapped in any try in the source, so the exception propagates out
of stream_process. Concretely, a read failure on stdout in the first pass
aborts the whole run (outcome raised, no result returned) while stderr
still holds an undrained chunk that the second pass of the trace would
have read. -/
theorem C4_counterexample :
    stream_process (some 5) [] errC4 trC4 = .raised Channel.out (initState [] errC4) ∧
    (finalState (stream_process (some 5) [] errC4 trC4)).cerr.pending = errC4 ∧
    resultOf (stream_process (some 5) [] errC4 trC4) = none :=
  ⟨rfl, rfl, rfl⟩

/-- C4 as amended: a failed read on a channel aborts the entire
stream_process call (the loop does not continue and the other channel is
not drained further); the loop can only reach a raised outcome through a
failing read, so when every read succeeds the loop never aborts this way.
Only the forwarding writes to the external sinks are swallowed. -/
theorem C4_amended_read_error_aborts (d : Option Nat) (s : PState) (tr : List Iter) :
    (∀ c s1, runLoop d s tr = .raised c s1 →
      ∃ it ∈ tr, ∃ ev ∈ it.events, ev.chan = c ∧ ev.readFails = true) ∧
    ((∀ it ∈ tr, ∀ ev ∈ it.events, ev.readFails = false) →
      ∀ c s1, runLoop d s tr ≠ .raised c s1) := by
  constructor
  · intro c s1 h
    exact runLoop_raised_cause d tr s c s1 h
  · intro hnf c s1 h
    obtain ⟨it, hit, ev, hev, _, hf⟩ := runLoop_raised_cause d tr s c s1 h
    rw [hnf it hit ev hev] at hf
    exact Bool.noConfusion hf

/-- C4 amended witness: with all reads succeeding in a concrete trace, the
run does not abort with a raised outcome. -/
theorem C4_amended_witness :
    runLoop (some 5) (initState [] errC4) [⟨0, [], some 0⟩] ≠
      .raised Channel.out (initState [] errC4) :=
  (C4_amended_read_error_aborts (some 5) (initState [] errC4) [⟨0, [], some 0⟩]).2
    (by decide) Channel.out (initState [] errC4)

/-- C5 counterexample: the claim says the supervisor also terminates the
process group where the platform allows it, but the source only calls
proc.kill on the child; in a concrete timed-out run the kill actions are
exactly the child kill and no group kill occurs. -/
theorem C5_counterexample :
    stream_process (some 1) [] [] trC5 = .timeout [KillScope.child] (initState [] []) ∧
    KillScope.group ∉ killsOf (stream_process (some 1) [] [] trC5) :=
  ⟨rfl, by decide⟩

/-- C5 as amended: when the deadline is exceeded, stream_process forcibly
kills the child process itself and only the child; no process-group
termination is attempted, so orphaned descendants are not addressed. -/
theorem C5_amended_child_only_kill (d : Option Nat) (o e : List (List Char))
    (tr : List Iter) (ks : List KillScope) (s : PState)
    (h : stream_process d o e tr = .timeout ks s) :
    ks = [KillScope.child] ∧
    KillScope.group ∉ killsOf (stream_process d o e tr) := by
  rw [stream_process] at h
  have hk := runLoop_timeout_kills d tr (initState o e) ks s h
  refine ⟨hk, ?_⟩
  rw [stream_process, h]
  simp only [killsOf, hk]
  decide

/-- C5 amended witness: a concrete timed-out run kills exactly the
child. -/
theorem C5_amended_witness :
    ([KillScope.child] : List KillScope) = [KillScope.child] ∧
    KillScope.group ∉ killsOf (stream_process (some 1) ["x".toList] [] trC5) :=
  C5_amended_child_only_kill (some 1) ["x".toList] [] trC5 [KillScope.child]
    (initState ["x".toList] []) rfl

/-- C6 counterexample: the claim says the result record comprises the
elapsed wall-clock time of the run, but the source returns only the triple
of exit code, stdout and stderr. Two runs with different elapsed times
yield identical results, so no reading of the result can recover the
elapsed time. -/
theorem C6_counterexample :
    ¬ ∃ f : ExecutionResult → Nat,
        ∀ tr r, resultOf (stream_process none [] [] tr) = some r →
          f r = elapsedOf tr := by
  rintro ⟨f, hf⟩
  have h1 := hf trA6 ⟨3, [], []⟩ rfl
  have h2 := hf trB6 ⟨3, [], []⟩ rfl
  have e1 : elapsedOf trA6 = 0 := rfl
  have e2 : elapsedOf trB6 = 7 := rfl
  rw [e1] at h1
  rw [e2] at h2
  rw [h1] at h2
  exact absurd h2 (by decide)

/-- C6 as amended: every invocation whose drain loop ends on one of the
two returning paths produces exactly one result record, comprising the
exit status and the accumulated stdout and stderr texts (the joined
buffers of the final state); elapsed wall-clock time is not part of the
record. -/
theorem C6_amended_unique_result (d : Option Nat) (o e : List (List Char))
    (tr : List Iter) (h : isTerminal (stream_process d o e tr) = true) :
    ∃ r, resultOf (stream_process d o e tr) = some r ∧
      r.stdout = (finalState (stream_process d o e tr)).cout.buf.flatten ∧
      r.stderr = (finalState (stream_process d o e tr)).cerr.buf.flatten ∧
      ∀ r2, resultOf (stream_process d o e tr) = some r2 → r2 = r := by
  cases hout : stream_process d o e tr with
  | done c s =>
    exact ⟨⟨c, s.cout.buf.flatten, s.cerr.buf.flatten⟩, rfl, rfl, rfl,
      fun r2 h2 => (Option.some.inj h2).symm⟩
  | timeout ks s =>
    exact ⟨⟨124, s.cout.buf.flatten, s.cerr.buf.flatten⟩, rfl, rfl, rfl,
      fun r2 h2 => (Option.some.inj h2).symm⟩
  | raised c s => rw [hout] at h; simp [isTerminal] at h
  | fuel s => rw [hout] at h; simp [isTerminal] at h

/-- C6 amended witness: a concrete terminated run has exactly one result,
carrying the exit status and the two buffer texts. -/
theorem C6_amended_witness :
    ∃ r, resultOf (stream_process none [] [] trA6) = some r ∧
      r.stdout = (finalState (stream_process none [] [] trA6)).cout.buf.flatten ∧
      r.stderr = (finalState (stream_process none [] [] trA6)).cerr.buf.flatten ∧
      ∀ r2, resultOf (stream_process none [] [] trA6) = some r2 → r2 = r :=
  C6_amended_unique_result none [] [] trA6 rfl

/-- C8: with a deadline of 0, stream_process terminates for every command
and every fair trace (one in which some pass observes a positive elapsed
time and reads do not fail): the loop ends on a returning path, and the
returned result carries buffers that are a prefix, possibly empty, of the
command output. -/
theorem C8_zero_deadline_terminates (o e : List (List Char)) (tr : List Iter)
    (hnow : ∃ it ∈ tr, 0 < it.now)
    (hread : ∀ it ∈ tr, ∀ ev ∈ it.events, ev.readFails = false) :
    isTerminal (stream_process (some 0) o e tr) = true ∧
    ∃ r, resultOf (stream_process (some 0) o e tr) = some r ∧
      r.stdout <+: o.flatten ∧ r.stderr <+: e.flatten := by
  have hinv := runLoop_inv (o := o) (e := e) (some 0) tr (initState o e)
    (initState_inv o e)
  rw [stream_process]
  cases hout : runLoop (some 0) (initState o e) tr with
  | done c s =>
    rw [hout] at hinv
    simp only [finalState] at hinv
    obtain ⟨⟨h1, h2⟩, h3, h4⟩ := hinv
    refine ⟨rfl, ⟨c, s.cout.buf.flatten, s.cerr.buf.flatten⟩, rfl,
      ⟨s.cout.pending.flatten, ?_⟩, ⟨s.cerr.pending.flatten, ?_⟩⟩
    · rw [← List.flatten_append, h1]
    · rw [← List.flatten_append, h3]
  | timeout ks s =>
    rw [hout] at hinv
    simp only [finalState] at hinv
    obtain ⟨⟨h1, h2⟩, h3, h4⟩ := hinv
    refine ⟨rfl, ⟨124, s.cout.buf.flatten, s.cerr.buf.flatten⟩, rfl,
      ⟨s.cout.pending.flatten, ?_⟩, ⟨s.cerr.pending.flatten, ?_⟩⟩
    · rw [← List.flatten_append, h1]
    · rw [← List.flatten_append, h3]
  | raised c s =>
    obtain ⟨it, hit, ev, hev, _, hf⟩ :=
      runLoop_raised_cause (some 0) tr (initState o e) c s hout
    rw [hread it hit ev hev] at hf
    exact Bool.noConfusion hf
  | fuel s =>
    obtain ⟨it, hit, hpos⟩ := hnow
    have hfalse := runLoop_fuel_no_timeout (some 0) tr (initState o e) s hout it hit
    rw [timedOutAt] at hfalse
    simp [hpos] at hfalse

/-- C8 witness: a concrete zero-deadline run with a fair trace terminates
with a result whose buffers are a prefix of the output. -/
theorem C8_witness :
    isTerminal (stream_process (some 0) ["x\n".toList] [] trC8) = true ∧
    ∃ r, resultOf (stream_process (some 0) ["x\n".toList] [] trC8) = some r ∧
      r.stdout <+: (["x\n".toList] : List (List Char)).flatten ∧
      r.stderr <+: ([] : List (List Char)).flatten :=
  C8_zero_deadline_terminates ["x\n".toList] [] trC8 (by decide) (by decide)

/-- C9: the command-line entry point returns 2 with a diagnostic on the
error sink and no process spawned when no command is supplied; returns the
child exit code when the child exited normally; and returns 124 with the
diagnostic block reporting the command and the captured sizes of both
streams when the child was killed for exceeding the timeout. -/
theorem C9_cli_mapping (t : Nat) (cmd : List (List Char))
    (o e : List (List Char)) (tr : List Iter) :
    (cmd = [] → main t cmd o e tr = some ⟨2, [noCommandMsg], false⟩) ∧
    (∀ c s, cmd ≠ [] → stream_process (some t) o e tr = .done c s →
      ∃ cr, main t cmd o e tr = some cr ∧ cr.exitCode = c ∧ cr.spawned = true) ∧
    (∀ ks s, cmd ≠ [] → stream_process (some t) o e tr = .timeout ks s →
      main t cmd o e tr = some ⟨124,
        [timeoutBanner, commandLineMsg cmd,
          stdoutBytesMsg s.cout.buf.flatten.length,
          stderrBytesMsg s.cerr.buf.flatten.length], true⟩) := by
  refine ⟨?_, ?_, ?_⟩
  · intro hnil
    rw [hnil]
    rfl
  · intro c s hne hdone
    cases cmd with
    | nil => exact absurd rfl hne
    | cons hd tl =>
      rw [main, hdone]
      simp only [resultOf, List.isEmpty_cons, Bool.false_eq_true, if_false]
      refine ⟨⟨if c = 0 then 0 else c,
        if c = 124 then
          [timeoutBanner, commandLineMsg (hd :: tl),
            stdoutBytesMsg s.cout.buf.flatten.length,
            stderrBytesMsg s.cerr.buf.flatten.length] else [], true⟩, rfl, ?_, rfl⟩
      by_cases hc : c = 0
      · simp [hc]
      · simp [hc]
  · intro ks s hne hto
    cases cmd with
    | nil => exact absurd rfl hne
    | cons hd tl =>
      rw [main, hto]
      simp only [resultOf, List.isEmpty_cons, Bool.false_eq_true, if_false]
      norm_num

/-- C9 witness: the three cases at concrete inputs: no command gives 2
without spawning; a child exiting 7 gives 7; a timed-out child gives 124
with the diagnostic block. -/
theorem C9_witness :
    main 5 [] [] [] [] = some ⟨2, [noCommandMsg], false⟩ ∧
    (∃ cr, main 5 ["true".toList] [] [] trC9a = some cr ∧
      cr.exitCode = 7 ∧ cr.spawned = true) ∧
    main 5 ["spin".toList] ["x\n".toList] [] trC9b = some ⟨124,
      [timeoutBanner, commandLineMsg ["spin".toList],
        stdoutBytesMsg sC9.cout.buf.flatten.length,
        stderrBytesMsg sC9.cerr.buf.flatten.length], true⟩ :=
  ⟨(C9_cli_mapping 5 [] [] [] []).1 rfl,
   (C9_cli_mapping 5 ["true".toList] [] [] trC9a).2.1 7 (initState [] [])
     (by simp) rfl,
   (C9_cli_mapping 5 ["spin".toList] ["x\n".toList] [] trC9b).2.2
     [KillScope.child] sC9 (by simp) rfl⟩

/-! ## Lemmas on the coverage filter -/

theorem filterGo_nil_excl (fs : FileSys) :
    ∀ (rest : List (List Char)), (∀ l ∈ rest, isPrefixChars sfPrefix l = false) →
      filterGo fs [] rest = .ok rest
  | [], _ => rfl
  | l :: ls, h => by
    have ih := filterGo_nil_excl fs ls (fun l2 hl2 => h l2 (List.mem_cons_of_mem l hl2))
    rw [filterGo, h l (List.mem_cons_self l ls)]
    simp only [Bool.false_eq_true, if_false]
    by_cases hda : isPrefixChars daPrefix l = true
    · rw [if_pos hda]
      cases hpn : parseLeadNum (l.drop 3) with
      | some n => simp only [List.contains_nil, Bool.false_eq_true, if_false, ih]
      | none => rw [ih]
    · rw [if_neg hda]
      by_cases hbr : isPrefixChars brdaPrefix l = true
      · rw [if_pos hbr]
        cases hpn : parseLeadNum (l.drop 5) with
        | some n => simp only [List.contains_nil, Bool.false_eq_true, if_false, ih]
        | none => rw [ih]
      · rw [if_neg hbr, ih]

/-- C10 counterexample: the claim says find_excluded_lines returns the
empty exclusion set whenever the source file cannot be opened, but the
Python except clause catches only FileNotFoundError; an open failure of
any other kind (for example PermissionError) propagates and the
filter_lcov invocation fails instead of passing the records through. -/
theorem C10_counterexample :
    fsC10 "b.c".toList = .otherError ∧
    find_excluded_lines fsC10 ("b.c".toList) = .error () ∧
    filter_lcov fsC10 ["SF:b.c".toList, "DA:1,1".toList] = .error () :=
  ⟨rfl, rfl, rfl⟩

/-- C10 as amended: if the source file named by an SF: record does not
exist (FileNotFoundError), find_excluded_lines returns the empty exclusion
set and every DA: and BRDA: record for that file passes through the filter
unchanged; an open failure of any other kind propagates and aborts the
invocation. -/
theorem C10_amended_only_not_found (fs : FileSys) (name : List Char)
    (sfl : List Char) (rest : List (List Char)) (excl : List Nat) :
    (fs name = .notFound → find_excluded_lines fs name = .ok []) ∧
    (fs name = .otherError → find_excluded_lines fs name = .error ()) ∧
    (isPrefixChars sfPrefix sfl = true → fs (pyStrip (sfl.drop 3)) = .notFound →
      (∀ l ∈ rest, isPrefixChars sfPrefix l = false) →
      filterGo fs excl (sfl :: rest) = .ok (sfl :: rest)) := by
  refine ⟨?_, ?_, ?_⟩
  · intro h; rw [find_excluded_lines, h]
  · intro h; rw [find_excluded_lines, h]
  · intro hsf hnf hrest
    rw [filterGo, if_pos hsf, find_excluded_lines, hnf]
    dsimp only
    rw [filterGo_nil_excl fs rest hrest]

/-- C10 amended witness: a missing file yields the empty set and full
pass-through; the permission-style failure propagates. -/
theorem C10_amended_witness :
    find_excluded_lines fsC10 "missing.c".toList = .ok [] ∧
    find_excluded_lines fsC10 "b.c".toList = .error () ∧
    filterGo fsC10 [] ["SF:missing.c".toList, "DA:4,2".toList] =
      .ok ["SF:missing.c".toList, "DA:4,2".toList] :=
  ⟨(C10_amended_only_not_found fsC10 "missing.c".toList "SF:missing.c".toList
      ["DA:4,2".toList] []).1 rfl,
   (C10_amended_only_not_found fsC10 "b.c".toList "SF:missing.c".toList
      ["DA:4,2".toList] []).2.1 rfl,
   (C10_amended_only_not_found fsC10 "missing.c".toList "SF:missing.c".toList
      ["DA:4,2".toList] []).2.2 rfl rfl (by decide)⟩

/-- C3 counterexample: the source file of fsC3 consists of one line
bearing a stop marker with no start marker anywhere, so the exclusion set
described by the claim is empty at line 1; yet filter_lcov drops the
record DA:1,1 because the scan adds every stop line to the set
unconditionally. -/
theorem C3_counterexample :
    filter_lcov fsC3 inC3 = .ok ["SF:a.c".toList, "end_of_record".toList] ∧
    claimExcluded srcC3 1 = false :=
  ⟨rfl, rfl⟩

theorem scan_cons_mem (inb : Bool) (s n : Nat) (l : List Char)
    (ls : List (List Char)) :
    n ∈ scanExcl inb s (l :: ls) ↔
      ((containsSub lcovLine l || containsSub lcovStart l ||
        containsSub lcovStop l || inb) = true ∧ n = s) ∨
      n ∈ scanExcl (stepFlag inb l) (s + 1) ls := by
  rw [scanExcl, stepFlag]
  by_cases h1 : containsSub lcovLine l = true <;>
    by_cases h2 : containsSub lcovStart l = true <;>
      by_cases h3 : containsSub lcovStop l = true <;>
        cases inb <;>
          simp [h1, h2, h3, List.mem_append]

theorem inbAfter_cons (inb : Bool) (l : List Char) (ls : List (List Char)) :
    ∀ j, inbAfter inb (l :: ls) (j + 1) = inbAfter (stepFlag inb l) ls j
  | 0 => rfl
  | j + 1 => by
    have ih := inbAfter_cons inb l ls j
    rw [inbAfter]
    have hgs : (l :: ls).get? (j + 1) = ls.get? j := rfl
    rw [hgs]
    simp only [ih]
    rfl

theorem scan_mem_iff :
    ∀ (ls : List (List Char)) (inb : Bool) (s n : Nat),
      n ∈ scanExcl inb s ls ↔
        s ≤ n ∧ n < s + ls.length ∧
          (markerAt ls (n - s) = true ∨ inbAfter inb ls (n - s) = true)
  | [], inb, s, n => by
    simp only [scanExcl, List.not_mem_nil, List.length_nil, false_iff, not_and]
    intro h1 h2
    omega
  | l :: ls, inb, s, n => by
    rw [scan_cons_mem, scan_mem_iff ls (stepFlag inb l) (s + 1) n]
    constructor
    · rintro (⟨hmk, rfl⟩ | ⟨hs1, hlt, hrest⟩)
      · refine ⟨Nat.le_refl _, by simp, ?_⟩
        rw [Nat.sub_self]
        simp only [Bool.or_eq_true] at hmk
        rcases hmk with ((hA | hB) | hC) | hI
        · exact Or.inl (by simp [markerAt, hA])
        · exact Or.inl (by simp [markerAt, hB])
        · exact Or.inl (by simp [markerAt, hC])
        · exact Or.inr (by simp [inbAfter, hI])
      · have hsub : n - s = (n - (s + 1)) + 1 := by omega
        rw [hsub]
        refine ⟨by omega, by simp [List.length_cons]; omega, ?_⟩
        rw [show markerAt (l :: ls) ((n - (s + 1)) + 1) = markerAt ls (n - (s + 1))
            from rfl,
          inbAfter_cons]
        exact hrest
    · rintro ⟨hs, hlt, hmk⟩
      by_cases hn : n = s
      · subst hn
        rw [Nat.sub_self] at hmk
        refine Or.inl ⟨?_, rfl⟩
        simp only [Bool.or_eq_true]
        rcases hmk with hmrk | hinb
        · have : (containsSub lcovLine l || containsSub lcovStart l ||
              containsSub lcovStop l) = true := by
            simpa [markerAt] using hmrk
          simp only [Bool.or_eq_true] at this
          tauto
        · exact Or.inr (by simpa [inbAfter] using hinb)
      · refine Or.inr ⟨by omega, by simp [List.length_cons] at hlt; omega, ?_⟩
        have hsub : n - s = (n - (s + 1)) + 1 := by omega
        rw [hsub] at hmk
        rw [show markerAt (l :: ls) ((n - (s + 1)) + 1) = markerAt ls (n - (s + 1))
            from rfl, inbAfter_cons] at hmk
        exact hmk

theorem openBlockB_iff (src : List (List Char)) (n : Nat) :
    openBlockB src n = true ↔
      ∃ m, m < n ∧ lineHas lcovStart src m = true ∧
        ∀ k, k < n → m < k → stopOnlyAt src k = false := by
  rw [openBlockB, List.any_eq_true]
  constructor
  · rintro ⟨m, hm, hcond⟩
    rw [Bool.and_eq_true, List.all_eq_true] at hcond
    obtain ⟨hstart, hall⟩ := hcond
    refine ⟨m, List.mem_range.mp hm, hstart, ?_⟩
    intro k hk hmk
    have hone := hall k (List.mem_range.mpr hk)
    simpa [hmk] using hone
  · rintro ⟨m, hm, hstart, hstop⟩
    refine ⟨m, List.mem_range.mpr hm, ?_⟩
    rw [Bool.and_eq_true, List.all_eq_true]
    refine ⟨hstart, ?_⟩
    intro k hk
    by_cases hmk : m < k
    · have := hstop k (List.mem_range.mp hk) hmk
      simp [this]
    · simp [hmk]

theorem inbAfter_eq_openBlock (src : List (List Char)) :
    ∀ j, inbAfter false src j = openBlockB src (j + 1)
  | 0 => by
    cases hob : openBlockB src 1 with
    | false => rfl
    | true =>
      exfalso
      obtain ⟨m, hm, hstart, _⟩ := (openBlockB_iff src 1).mp hob
      have hm0 : m = 0 := by omega
      rw [hm0] at hstart
      simp [lineHas] at hstart
  | j + 1 => by
    have ih := inbAfter_eq_openBlock src j
    rw [inbAfter]
    cases hg : src.get? j with
    | none =>
      have hg2 : src[j]? = none := by rw [← List.get?_eq_getElem?]; exact hg
      rw [ih]
      apply bool_ext
      rw [openBlockB_iff, openBlockB_iff]
      constructor
      · rintro ⟨m, hm, hstart, hstop⟩
        refine ⟨m, by omega, hstart, ?_⟩
        intro k hk hmk
        by_cases hkj : k = j + 1
        · rw [hkj]; simp [stopOnlyAt, lineHas, hg2]
        · exact hstop k (by omega) hmk
      · rintro ⟨m, hm, hstart, hstop⟩
        have hm1 : m < j + 1 := by
          rcases (by omega : m < j + 1 ∨ m = j + 1) with h | h
          · exact h
          · exfalso; rw [h] at hstart; simp [lineHas, hg2] at hstart
        exact ⟨m, hm1, hstart, fun k hk hmk => hstop k (by omega) hmk⟩
    | some l =>
      have hg2 : src[j]? = some l := by rw [← List.get?_eq_getElem?]; exact hg
      dsimp only
      by_cases hstartl : containsSub lcovStart l = true
      · rw [stepFlag, if_pos hstartl]
        symm
        refine (openBlockB_iff src (j + 1 + 1)).mpr ⟨j + 1, by omega, ?_, ?_⟩
        · simp [lineHas, hg2, hstartl]
        · intro k hk hmk; exfalso; omega
      · by_cases hstopl : containsSub lcovStop l = true
        · rw [stepFlag, if_neg hstartl, if_pos hstopl]
          symm
          cases hob : openBlockB src (j + 1 + 1) with
          | false => rfl
          | true =>
            exfalso
            obtain ⟨m, hm, hstart, hstop⟩ := (openBlockB_iff src (j + 1 + 1)).mp hob
            rcases (by omega : m < j + 1 ∨ m = j + 1) with hlt | heq
            · have hcl := hstop (j + 1) (by omega) hlt
              simp [stopOnlyAt, lineHas, hg2, hstopl, hstartl] at hcl
            · rw [heq] at hstart
              simp [lineHas, hg2, hstartl] at hstart
        · rw [stepFlag, if_neg hstartl, if_neg hstopl, ih]
          apply bool_ext
          rw [openBlockB_iff, openBlockB_iff]
          constructor
          · rintro ⟨m, hm, hstart, hstop⟩
            refine ⟨m, by omega, hstart, ?_⟩
            intro k hk hmk
            by_cases hkj : k = j + 1
            · rw [hkj]; simp [stopOnlyAt, lineHas, hg2, hstopl]
            · exact hstop k (by omega) hmk
          · rintro ⟨m, hm, hstart, hstop⟩
            have hm1 : m < j + 1 := by
              rcases (by omega : m < j + 1 ∨ m = j + 1) with h | h
              · exact h
              · exfalso; rw [h] at hstart; simp [lineHas, hg2, hstartl] at hstart
            exact ⟨m, hm1, hstart, fun k hk hmk => hstop k (by omega) hmk⟩

theorem markerAt_eq_lineHas (src : List (List Char)) (n : Nat) (h1 : 1 ≤ n) :
    markerAt src (n - 1) =
      (lineHas lcovLine src n || lineHas lcovStart src n ||
        lineHas lcovStop src n) := by
  have hd : decide (1 ≤ n) = true := decide_eq_true h1
  simp only [markerAt, lineHas, hd, Bool.true_and]
  cases hg : src.get? (n - 1) with
  | none => rfl
  | some l => rfl

theorem scan_contains_eq_amended (src : List (List Char)) (n : Nat) :
    (scanExcl false 1 src).contains n = amendedExcluded src n := by
  apply bool_ext
  constructor
  · intro hc
    have hmem : n ∈ scanExcl false 1 src := List.elem_iff.mp hc
    obtain ⟨hs, hlt, hmk⟩ := (scan_mem_iff src false 1 n).mp hmem
    rw [amendedExcluded, decide_eq_true hs,
      decide_eq_true (by omega : n ≤ src.length)]
    simp only [Bool.true_and, Bool.or_eq_true]
    rcases hmk with hm | hin
    · rw [markerAt_eq_lineHas src n hs] at hm
      simp only [Bool.or_eq_true] at hm
      tauto
    · rw [inbAfter_eq_openBlock src (n - 1),
        show n - 1 + 1 = n from by omega] at hin
      tauto
  · intro ha
    rw [amendedExcluded] at ha
    simp only [Bool.and_eq_true, decide_eq_true_eq] at ha
    obtain ⟨⟨h1n, hlen⟩, hdisj⟩ := ha
    refine List.elem_iff.mpr ((scan_mem_iff src false 1 n).mpr
      ⟨h1n, by omega, ?_⟩)
    simp only [Bool.or_eq_true] at hdisj
    rcases hdisj with ((hA | hB) | hC) | hO
    · left; rw [markerAt_eq_lineHas src n h1n]; simp [hA]
    · left; rw [markerAt_eq_lineHas src n h1n]; simp [hB]
    · left; rw [markerAt_eq_lineHas src n h1n]; simp [hC]
    · right
      rw [inbAfter_eq_openBlock src (n - 1), show n - 1 + 1 = n from by omega]
      exact hO

theorem filterGo_eq_specFilter (fs : FileSys) :
    ∀ (lines : List (List Char)) (excl : List Nat) (ex : Nat → Bool),
      (∀ n, excl.contains n = ex n) →
      filterGo fs excl lines = specFilter fs ex lines
  | [], _, _, _ => rfl
  | l :: ls, excl, ex, hpt => by
    rw [filterGo, specFilter]
    by_cases hsf : isPrefixChars sfPrefix l = true
    · rw [if_pos hsf, if_pos hsf, find_excluded_lines, specExclOfFile]
      cases hfs : fs (pyStrip (l.drop 3)) with
      | content src =>
        dsimp only
        rw [filterGo_eq_specFilter fs ls (scanExcl false 1 src) (amendedExcluded src)
          (fun n => scan_contains_eq_amended src n)]
      | notFound =>
        dsimp only
        rw [filterGo_eq_specFilter fs ls [] (fun _ => false) (fun n => rfl)]
      | otherError => rfl
    · rw [if_neg hsf, if_neg hsf]
      by_cases hda : isPrefixChars daPrefix l = true
      · rw [if_pos hda, if_pos hda]
        cases hpn : parseLeadNum (l.drop 3) with
        | some n =>
          dsimp only
          rw [hpt n, filterGo_eq_specFilter fs ls excl ex hpt]
        | none =>
          dsimp only
          rw [filterGo_eq_specFilter fs ls excl ex hpt]
      · rw [if_neg hda, if_neg hda]
        by_cases hbr : isPrefixChars brdaPrefix l = true
        · rw [if_pos hbr, if_pos hbr]
          cases hpn : parseLeadNum (l.drop 5) with
          | some n =>
            dsimp only
            rw [hpt n, filterGo_eq_specFilter fs ls excl ex hpt]
          | none =>
            dsimp only
            rw [filterGo_eq_specFilter fs ls excl ex hpt]
        · rw [if_neg hbr, if_neg hbr, filterGo_eq_specFilter fs ls excl ex hpt]

/-- C3 as amended: filter_lcov drops exactly those DA: and BRDA: records
whose line number lies in the exclusion set of the current SF: source
file, and passes every other record line through unmodified and in order,
where the exclusion set is the one the scan actually computes: every line
of the file bearing the single-line marker, the start marker or the stop
marker (a stop line is excluded even with no open block), and every line
of the file inside an open block, a block being opened by a start line
and closed by the next line containing a stop marker without a start
marker, or running to the end of the file when no such line follows. -/
theorem C3_amended_filter_description (fs : FileSys) (lines : List (List Char)) :
    filter_lcov fs lines = specFilter fs (fun _ => false) lines := by
  rw [filter_lcov]
  exact filterGo_eq_specFilter fs lines [] (fun _ => false) (fun n => rfl)

end ReadyCheck
